import Mathlib

/-!
Shallow embedding of the `commonuseragent` Go library (the catalog manager in
the main package) and of the rate-limiter middleware in
`internal/api/handlers.go`, together with theorems about the claims of the
specification.

Modelling conventions:
* Go `float64` weights (`Pct`) are modelled as `Rat` (all comparisons in the
  source are order comparisons against integer bounds).
* Go `len` on a string is the UTF-8 byte length, modelled by
  `String.utf8ByteSize`.
* The embedded file system (`embed.FS`) is modelled as a function from file
  names to an optional parse result: `none` means the file is unreadable
  (`ReadFile` fails); `some (.error ())` means it reads but fails to parse
  as JSON; `some (.ok l)` means it parses to the entry list `l`.
* `crypto/rand.Int(reader, n)` is modelled by an optional raw draw
  `draw : Option Nat`; `none` is an entropy-source failure, and `some v`
  yields the in-range value `v % n`.
* Go sentinel errors and `fmt.Errorf("%w", ...)` wrapping are modelled by an
  error kind that is preserved by wrapping (wrapping only changes the
  message, which no claim depends on).
-/

namespace CommonUserAgent

/-- Decidable equality on `Except`, used to evaluate the embedding on concrete
inputs. -/
instance {ε α : Type} [DecidableEq ε] [DecidableEq α] : DecidableEq (Except ε α)
  | .error a, .error b =>
    if h : a = b then .isTrue (by rw [h])
    else .isFalse (by intro hc; injection hc; exact h ‹_›)
  | .error _, .ok _ => .isFalse (fun hc => Except.noConfusion hc)
  | .ok _, .error _ => .isFalse (fun hc => Except.noConfusion hc)
  | .ok a, .ok b =>
    if h : a = b then .isTrue (by rw [h])
    else .isFalse (by intro hc; injection hc; exact h ‹_›)

/-- The `UserAgent` record from the Go source: the UA string and its usage
percentage. -/
structure UserAgent where
  UA : String
  Pct : Rat
deriving DecidableEq, Repr, Inhabited

/-- The `Config` from the Go source: the two embedded file names. -/
structure Config where
  DesktopFile : String
  MobileFile : String
deriving DecidableEq, Repr

/-- The `DefaultConfig` from the Go source. -/
def DefaultConfig : Config :=
  { DesktopFile := "desktop_useragents.json", MobileFile := "mobile_useragents.json" }

/-- Error kinds of the library.  `invalidData`, `fileNotFound` and
`emptyAgentList` are the three sentinel errors `ErrInvalidData`,
`ErrFileNotFound`, `ErrEmptyAgentList`; `parseError` is the wrapped
`json.Unmarshal` failure; `maxNotPositive` is the `errors.New` value inside
`secureRandomInt`; `entropyFailure` is a failure of `crypto/rand`. -/
inductive GoErr where
  | invalidData
  | fileNotFound
  | parseError
  | emptyAgentList
  | maxNotPositive
  | entropyFailure
deriving DecidableEq, Repr

/-- The state of a successfully constructed `Manager` (the mutex only guards
concurrent access and has no sequential content). -/
structure Manager where
  desktopAgents : List UserAgent
  mobileAgents : List UserAgent
  config : Config
deriving DecidableEq, Repr

/-- The `validateAgent` from the Go source: empty UA, percentage out of `[0,100]`,
or byte length outside `[10,1000]` are invalid, checked in that order. -/
def validateAgent (ua : UserAgent) : Except GoErr Unit :=
  if ua.UA = "" then .error .invalidData
  else if ua.Pct < 0 ∨ ua.Pct > 100 then .error .invalidData
  else if ua.UA.utf8ByteSize < 10 ∨ ua.UA.utf8ByteSize > 1000 then .error .invalidData
  else .ok ()

/-- The `for i, agent := range` loops of `Manager.validate`: first invalid
entry aborts with its error. -/
def validateList : List UserAgent → Except GoErr Unit
  | [] => .ok ()
  | ua :: rest =>
    match validateAgent ua with
    | .error e => .error e
    | .ok _ => validateList rest

/-- The `Manager.validate` from the Go source: fails when both lists are empty,
then validates each desktop agent, then each mobile agent. -/
def Manager.validate (m : Manager) : Except GoErr Unit :=
  if m.desktopAgents = [] ∧ m.mobileAgents = [] then .error .invalidData
  else
    match validateList m.desktopAgents with
    | .error e => .error e
    | .ok _ => validateList m.mobileAgents

/-- The modelled embedded file system: `none` = unreadable, `some (.error ())`
= readable but not valid JSON, `some (.ok l)` = parses to the list `l`. -/
def FS : Type := String → Option (Except Unit (List UserAgent))

/-- The `Manager.loadUserAgents` from the Go source: a read failure yields the
`ErrFileNotFound` sentinel, a parse failure yields the wrapped json error. -/
def loadUserAgents (fs : FS) (filename : String) : Except GoErr (List UserAgent) :=
  match fs filename with
  | none => .error .fileNotFound
  | some (.error _) => .error .parseError
  | some (.ok agents) => .ok agents

/-- The `NewManager` from the Go source: an empty desktop or mobile file name
fails with the `ErrInvalidData` sentinel; then both files are loaded and the
result validated; any failure aborts construction with no manager. -/
def NewManager (fs : FS) (cfg : Config) : Except GoErr Manager :=
  if cfg.DesktopFile = "" ∨ cfg.MobileFile = "" then .error .invalidData
  else
    match loadUserAgents fs cfg.DesktopFile with
    | .error e => .error e
    | .ok d =>
      match loadUserAgents fs cfg.MobileFile with
      | .error e => .error e
      | .ok mo =>
        match Manager.validate { desktopAgents := d, mobileAgents := mo, config := cfg } with
        | .error e => .error e
        | .ok _ => .ok { desktopAgents := d, mobileAgents := mo, config := cfg }

/-- The embedded file system of the repository: the two JSON files embedded by
the `go:embed` directives, parsing to the given entry lists. -/
def embedFS (d mo : List UserAgent) : FS := fun name =>
  if name = "desktop_useragents.json" then some (.ok d)
  else if name = "mobile_useragents.json" then some (.ok mo)
  else none

/-- Construction from a pair of entry lists: `NewManager` over the embedded
file system holding exactly those lists, with the default configuration. -/
def NewManagerFromLists (d mo : List UserAgent) : Except GoErr Manager :=
  NewManager (embedFS d mo) DefaultConfig

/-- A file system on which every read fails, used in concrete witnesses. -/
def unreadableFS : FS := fun _ => none

/-- A valid desktop-style entry used in concrete witnesses. -/
def uaOk : UserAgent := { UA := "Mozilla/5.0 (X11; Linux x86_64) Test", Pct := 50 }

/-- A second valid entry used in concrete witnesses. -/
def uaOk2 : UserAgent := { UA := "Mozilla/5.0 (iPhone; CPU iPhone OS) Test", Pct := 25 }

/-- The `secureRandomInt` from the Go source: non-positive `max` is an error;
otherwise a failed entropy draw propagates as an error, and a successful raw
draw `v` yields the uniform in-range value `v % max`. -/
def secureRandomInt (draw : Option Nat) (max : Int) : Except GoErr Int :=
  if max ≤ 0 then .error .maxNotPositive
  else
    match draw with
    | none => .error .entropyFailure
    | some v => .ok ((v : Int) % max)

/-- The `Manager.GetRandomDesktop` from the Go source: empty catalog fails with
`ErrEmptyAgentList`; otherwise a secure random index is drawn (failures
wrapped and propagated) and the catalog indexed with it. -/
def Manager.GetRandomDesktop (m : Manager) (draw : Option Nat) : Except GoErr UserAgent :=
  if m.desktopAgents.length = 0 then .error .emptyAgentList
  else
    match secureRandomInt draw (m.desktopAgents.length : Int) with
    | .error e => .error e
    | .ok idx => .ok (m.desktopAgents.getD idx.toNat default)

/-- The `Manager.GetRandomMobile` from the Go source: same shape as
`GetRandomDesktop`, over the mobile catalog. -/
def Manager.GetRandomMobile (m : Manager) (draw : Option Nat) : Except GoErr UserAgent :=
  if m.mobileAgents.length = 0 then .error .emptyAgentList
  else
    match secureRandomInt draw (m.mobileAgents.length : Int) with
    | .error e => .error e
    | .ok idx => .ok (m.mobileAgents.getD idx.toNat default)

/-- The `Manager.GetRandomDesktopUA` from the Go source: the UA string of a random
desktop entry, propagating errors. -/
def Manager.GetRandomDesktopUA (m : Manager) (draw : Option Nat) : Except GoErr String :=
  match m.GetRandomDesktop draw with
  | .error e => .error e
  | .ok ua => .ok ua.UA

/-- The `Manager.GetRandomMobileUA` from the Go source. -/
def Manager.GetRandomMobileUA (m : Manager) (draw : Option Nat) : Except GoErr String :=
  match m.GetRandomMobile draw with
  | .error e => .error e
  | .ok ua => .ok ua.UA

/-- The `Manager.GetRandomUA` from the Go source: concatenates the two catalogs,
fails with `ErrEmptyAgentList` when the union is empty, and otherwise returns
the UA string at a secure random index of the union. -/
def Manager.GetRandomUA (m : Manager) (draw : Option Nat) : Except GoErr String :=
  if (m.desktopAgents ++ m.mobileAgents).length = 0 then .error .emptyAgentList
  else
    match secureRandomInt draw ((m.desktopAgents ++ m.mobileAgents).length : Int) with
    | .error e => .error e
    | .ok idx => .ok (((m.desktopAgents ++ m.mobileAgents).getD idx.toNat default).UA)

/-- The `Manager.GetAllDesktop` from the Go source, as a pure value: the returned
slice is a fresh copy whose contents equal the stored catalog (aliasing is
modelled separately in the heap model below). -/
def Manager.GetAllDesktop (m : Manager) : List UserAgent :=
  m.desktopAgents

/-- The `Manager.GetAllMobile` from the Go source, as a pure value. -/
def Manager.GetAllMobile (m : Manager) : List UserAgent :=
  m.mobileAgents

example : validateAgent uaOk = .ok () := by decide
example : validateAgent { UA := "", Pct := 50 } = .error .invalidData := by decide
example : validateAgent { UA := "short", Pct := 50 } = .error .invalidData := by decide
example : validateAgent { UA := uaOk.UA, Pct := -1 } = .error .invalidData := by decide
example : validateAgent { UA := uaOk.UA, Pct := 101 } = .error .invalidData := by decide
example : NewManagerFromLists [uaOk] [uaOk2] =
    .ok { desktopAgents := [uaOk], mobileAgents := [uaOk2], config := DefaultConfig } := by decide
example : NewManagerFromLists [uaOk] [] =
    .ok { desktopAgents := [uaOk], mobileAgents := [], config := DefaultConfig } := by decide

/-!
Heap model of slice aliasing, for the defensive-copy claim.  A heap is a list
of allocated slices; a slice value held by client code is a reference (an
index) into the heap.  `Manager` state holds references to its two catalogs.
`GetAllDesktop`/`GetAllMobile` allocate a fresh slice (`make` + `copy` in the
source) and return its reference; mutating through a reference writes that
heap cell in place.
-/

/-- A heap of allocated slices; a reference is an index into `cells`. -/
structure Heap where
  cells : List (List UserAgent)

/-- Dereference: the slice stored at reference `r`. -/
def Heap.read (h : Heap) (r : Nat) : List UserAgent :=
  h.cells.getD r []

/-- Allocate a fresh slice holding `v`; returns its reference and the grown
heap. -/
def Heap.alloc (h : Heap) (v : List UserAgent) : Nat × Heap :=
  (h.cells.length, ⟨h.cells ++ [v]⟩)

/-- In-place mutation of the slice behind reference `r`. -/
def Heap.write (h : Heap) (r : Nat) (v : List UserAgent) : Heap :=
  ⟨h.cells.set r v⟩

/-- Manager state in the heap model: references to the two stored catalogs. -/
structure ManagerRef where
  desktopRef : Nat
  mobileRef : Nat

/-- A manager reference is well formed when both its catalog references are
live (allocated) in the heap. -/
def ManagerRef.wf (m : ManagerRef) (h : Heap) : Prop :=
  m.desktopRef < h.cells.length ∧ m.mobileRef < h.cells.length

/-- The `GetAllDesktop` in the heap model: `make` a fresh slice, `copy` the stored
catalog into it, return the fresh reference. -/
def GetAllDesktopH (m : ManagerRef) (h : Heap) : Nat × Heap :=
  h.alloc (h.read m.desktopRef)

/-- The `GetAllMobile` in the heap model. -/
def GetAllMobileH (m : ManagerRef) (h : Heap) : Nat × Heap :=
  h.alloc (h.read m.mobileRef)

/-- The pure `Manager` view of a heap-model manager: the contents of its two
catalogs.  All selection operations factor through this view. -/
def ManagerRef.view (m : ManagerRef) (h : Heap) : Manager :=
  { desktopAgents := h.read m.desktopRef, mobileAgents := h.read m.mobileRef,
    config := DefaultConfig }

/-!
Rate limiter, from `RateLimitMiddleware` in `internal/api/handlers.go`.
Times (`time.Time`, `time.Duration`) are modelled as integers (nanoseconds);
`now.Sub(c.lastReset)` is `now - c.lastReset`.  The per-key step function
takes the key's current record (`none` when the key has no record) and the
current time, and returns the new record together with whether the request is
allowed (`true`) or rejected with the 429 rate-limited response (`false`).
-/

/-- The per-key record of the rate limiter (`client` struct in the source). -/
structure RLClient where
  requests : Int
  lastReset : Int
deriving DecidableEq, Repr

/-- The per-key step of `RateLimitMiddleware`, from the Go source: no record
or elapsed window resets to `{1, now}` and allows; otherwise
`requests >= maxRequests` rejects leaving the record unchanged, else the count
is incremented and the call allowed. -/
def rateLimitStep (maxRequests window : Int) (rec : Option RLClient) (now : Int) :
    Option RLClient × Bool :=
  match rec with
  | none => (some { requests := 1, lastReset := now }, true)
  | some c =>
    if now - c.lastReset > window then
      (some { requests := 1, lastReset := now }, true)
    else if c.requests ≥ maxRequests then
      (some c, false)
    else
      (some { requests := c.requests + 1, lastReset := c.lastReset }, true)

/-- Modelled from the spec: the per-key step function as the specification
words it — reset and allow when no record exists or the window has elapsed;
else increment and allow when `count < maxRequests`; else reject with the
record unchanged. -/
def specRateLimitStep (maxRequests window : Int) (rec : Option RLClient) (now : Int) :
    Option RLClient × Bool :=
  match rec with
  | none => (some { requests := 1, lastReset := now }, true)
  | some c =>
    if now - c.lastReset > window then
      (some { requests := 1, lastReset := now }, true)
    else if c.requests < maxRequests then
      (some { requests := c.requests + 1, lastReset := c.lastReset }, true)
    else
      (some c, false)

/-!
Helper lemmas shared by the claim theorems.
-/

/-- The `validateList` succeeds exactly when every entry of the list validates. -/
lemma validateList_ok_iff (l : List UserAgent) :
    validateList l = .ok () ↔ ∀ ua ∈ l, validateAgent ua = .ok () := by
  induction l with
  | nil => simp [validateList]
  | cons a rest ih =>
    simp only [validateList]
    cases h : validateAgent a with
    | error e =>
      simp only [List.forall_mem_cons, h]
      constructor
      · intro hc; exact absurd hc (by simp)
      · rintro ⟨h1, -⟩; exact absurd h1 (by simp)
    | ok u =>
      cases u
      simp [List.forall_mem_cons, ih, h]

/-- The `Manager.validate` succeeds exactly when the two catalogs are not both
empty and every entry of both validates. -/
lemma validate_ok_iff (m : Manager) :
    m.validate = .ok () ↔
      ¬(m.desktopAgents = [] ∧ m.mobileAgents = []) ∧
        ∀ ua ∈ m.desktopAgents ++ m.mobileAgents, validateAgent ua = .ok () := by
  unfold Manager.validate
  by_cases hb : m.desktopAgents = [] ∧ m.mobileAgents = []
  · simp [hb]
  · rw [if_neg hb]
    cases hd : validateList m.desktopAgents with
    | error e =>
      simp only [hb, not_false_iff, true_and, List.mem_append]
      constructor
      · intro hc; exact absurd hc (by simp)
      · intro hall
        have : validateList m.desktopAgents = .ok () :=
          (validateList_ok_iff _).mpr fun ua hua => hall ua (Or.inl hua)
        rw [hd] at this
        exact absurd this (by simp)
    | ok u =>
      cases u
      have hdall : ∀ ua ∈ m.desktopAgents, validateAgent ua = .ok () :=
        (validateList_ok_iff _).mp hd
      constructor
      · intro h
        refine ⟨hb, ?_⟩
        intro ua hua
        rcases List.mem_append.mp hua with h1 | h2
        · exact hdall ua h1
        · exact (validateList_ok_iff _).mp h ua h2
      · rintro ⟨-, hall⟩
        exact (validateList_ok_iff _).mpr fun ua hua =>
          hall ua (List.mem_append.mpr (Or.inr hua))

/-- The `NewManagerFromLists` reduces to validation of the manager holding the
two given lists. -/
lemma newManagerFromLists_eq (d mo : List UserAgent) :
    NewManagerFromLists d mo =
      match Manager.validate
          { desktopAgents := d, mobileAgents := mo, config := DefaultConfig } with
      | .error e => .error e
      | .ok _ =>
        .ok { desktopAgents := d, mobileAgents := mo, config := DefaultConfig } := rfl

/-- A successful construction yields exactly the validated manager record. -/
lemma newManager_ok (fs : FS) (cfg : Config) (mgr : Manager)
    (h : NewManager fs cfg = .ok mgr) : mgr.validate = .ok () := by
  unfold NewManager at h
  by_cases h0 : cfg.DesktopFile = "" ∨ cfg.MobileFile = ""
  · rw [if_pos h0] at h; exact absurd h (by simp)
  · rw [if_neg h0] at h
    cases hd : loadUserAgents fs cfg.DesktopFile with
    | error e => simp [hd] at h
    | ok d =>
      cases hm : loadUserAgents fs cfg.MobileFile with
      | error e => simp [hd, hm] at h
      | ok mo =>
        cases hv : Manager.validate
            { desktopAgents := d, mobileAgents := mo, config := cfg } with
        | error e => simp [hd, hm, hv] at h
        | ok u =>
          cases u
          simp only [hd, hm, hv, Except.ok.injEq] at h
          rw [← h]
          exact hv

/-- The `secureRandomInt` never produces the empty-list sentinel. -/
lemma secureRandomInt_error (draw : Option Nat) (n : Int) (e : GoErr)
    (h : secureRandomInt draw n = .error e) :
    e = .maxNotPositive ∨ e = .entropyFailure := by
  unfold secureRandomInt at h
  by_cases h0 : n ≤ 0
  · rw [if_pos h0] at h
    simp only [Except.error.injEq] at h
    exact Or.inl h.symm
  · rw [if_neg h0] at h
    cases draw with
    | none =>
      simp only [Except.error.injEq] at h
      exact Or.inr h.symm
    | some v => exact absurd h (by simp)

/-- Bounds for a successful secure random draw. -/
lemma secureRandomInt_ok (draw : Option Nat) (n i : Int)
    (h : secureRandomInt draw n = .ok i) : 0 ≤ i ∧ i < n := by
  unfold secureRandomInt at h
  by_cases h0 : n ≤ 0
  · rw [if_pos h0] at h; exact absurd h (by simp)
  · rw [if_neg h0] at h
    cases draw with
    | none => exact absurd h (by simp)
    | some v =>
      simp only [Except.ok.injEq] at h
      have hn : 0 < n := lt_of_not_le h0
      rw [← h]
      exact ⟨Int.emod_nonneg _ (by omega), Int.emod_lt_of_pos _ hn⟩

/-- An in-range `getD` is a member of the list. -/
lemma getD_mem (l : List UserAgent) (i : Nat) (d : UserAgent) (h : i < l.length) :
    l.getD i d ∈ l := by
  rw [List.getD_eq_getElem?_getD, List.getElem?_eq_getElem h]
  exact List.get_mem l i h

/-!
Claim theorems: the rate limiter.
-/

/-- C2: the per-key step function of `RateLimitMiddleware` agrees with the
step function specified in the spec (reset-and-allow on no record or elapsed
window; increment-and-allow while the count is below the maximum; reject
otherwise, leaving the record unchanged) on every input. -/
theorem rateLimit_step_matches_spec (maxRequests window : Int)
    (rec : Option RLClient) (now : Int) :
    rateLimitStep maxRequests window rec now =
      specRateLimitStep maxRequests window rec now := by
  cases rec with
  | none => rfl
  | some c =>
    simp only [rateLimitStep, specRateLimitStep]
    by_cases h1 : now - c.lastReset > window
    · rw [if_pos h1, if_pos h1]
    · rw [if_neg h1, if_neg h1]
      by_cases h2 : c.requests ≥ maxRequests
      · rw [if_pos h2, if_neg (not_lt.mpr h2)]
      · rw [if_neg h2, if_pos (lt_of_not_le h2)]

/-- C10: the rate limiter does not enforce `maxRequests > 0`: for every
`maxRequests` (including zero and negative values), a key with no record, or
whose window has elapsed, is always allowed and its record reset to count 1,
because the reset branch runs before `maxRequests` is consulted. -/
theorem rateLimit_no_positivity_precondition :
    (∀ maxRequests window now : Int,
      rateLimitStep maxRequests window none now =
        (some { requests := 1, lastReset := now }, true)) ∧
    (∀ maxRequests window now : Int, ∀ c : RLClient, now - c.lastReset > window →
      rateLimitStep maxRequests window (some c) now =
        (some { requests := 1, lastReset := now }, true)) := by
  constructor
  · intro _ _ _; rfl
  · intro maxRequests window now c h
    simp only [rateLimitStep]
    rw [if_pos h]

/-- Witness for C10, at `maxRequests = 0` and `maxRequests = -3`. -/
theorem rateLimit_no_positivity_precondition_witness :
    rateLimitStep 0 5 none 7 = (some { requests := 1, lastReset := 7 }, true) ∧
    rateLimitStep (-3) 5 (some { requests := 99, lastReset := 0 }) 10 =
      (some { requests := 1, lastReset := 10 }, true) :=
  ⟨rateLimit_no_positivity_precondition.1 0 5 7,
   rateLimit_no_positivity_precondition.2 (-3) 5 10
     { requests := 99, lastReset := 0 } (by decide)⟩

/-!
Claim theorems: construction and validation.
-/

/-- C1: construction from a pair of entry lists succeeds exactly when every
entry satisfies the entry invariants and at least one entry is present; in
particular an empty text, a 5-character text, or a weight of -1 or 101 fails
construction (yielding no manager, so nothing is dropped or clamped), and an
all-valid input succeeds. -/
theorem construction_validates_every_entry :
    (∀ ua : UserAgent, validateAgent ua = .ok () ↔
      (ua.UA ≠ "" ∧ 10 ≤ ua.UA.utf8ByteSize ∧ ua.UA.utf8ByteSize ≤ 1000 ∧
        0 ≤ ua.Pct ∧ ua.Pct ≤ 100)) ∧
    (∀ d mo : List UserAgent,
      (∃ mgr, NewManagerFromLists d mo = .ok mgr) ↔
        ((∀ ua ∈ d ++ mo, validateAgent ua = .ok ()) ∧ ¬(d = [] ∧ mo = []))) ∧
    NewManagerFromLists [{ UA := "", Pct := 50 }] [uaOk2] = .error .invalidData ∧
    NewManagerFromLists [{ UA := "short", Pct := 50 }] [uaOk2] = .error .invalidData ∧
    NewManagerFromLists [{ UA := uaOk.UA, Pct := -1 }] [uaOk2] = .error .invalidData ∧
    NewManagerFromLists [{ UA := uaOk.UA, Pct := 101 }] [uaOk2] = .error .invalidData ∧
    NewManagerFromLists [uaOk] [uaOk2] =
      .ok { desktopAgents := [uaOk], mobileAgents := [uaOk2],
            config := DefaultConfig } := by
  refine ⟨?_, ?_, by decide, by decide, by decide, by decide, by decide⟩
  · intro ua
    unfold validateAgent
    by_cases h1 : ua.UA = ""
    · simp [h1]
    · rw [if_neg h1]
      by_cases h2 : ua.Pct < 0 ∨ ua.Pct > 100
      · rw [if_pos h2]
        refine iff_of_false (by simp) ?_
        rintro ⟨-, -, -, h0, h100⟩
        rcases h2 with hc | hc
        · exact absurd h0 (not_le.mpr hc)
        · exact absurd h100 (not_le.mpr hc)
      · rw [if_neg h2]
        by_cases h3 : ua.UA.utf8ByteSize < 10 ∨ ua.UA.utf8ByteSize > 1000
        · rw [if_pos h3]
          refine iff_of_false (by simp) ?_
          rintro ⟨-, hlo, hhi, -, -⟩
          rcases h3 with hc | hc
          · exact absurd hlo (not_le.mpr hc)
          · exact absurd hhi (not_le.mpr hc)
        · rw [if_neg h3]
          push_neg at h2 h3
          exact iff_of_true rfl ⟨h1, h3.1, h3.2, h2.1, h2.2⟩
  intro d mo
  rw [newManagerFromLists_eq]
  cases hv : Manager.validate
      { desktopAgents := d, mobileAgents := mo, config := DefaultConfig } with
  | error e =>
    constructor
    · rintro ⟨mgr, hmgr⟩; exact absurd hmgr (by simp)
    · rintro ⟨hall, hne⟩
      have hok : Manager.validate
          { desktopAgents := d, mobileAgents := mo, config := DefaultConfig } = .ok () :=
        (validate_ok_iff _).mpr ⟨hne, hall⟩
      rw [hv] at hok
      exact absurd hok (by simp)
  | ok u =>
    cases u
    constructor
    · rintro -
      have hok := (validate_ok_iff _).mp hv
      exact ⟨hok.2, hok.1⟩
    · rintro -
      exact ⟨_, rfl⟩

/-- C6: for all valid non-empty input entry lists, construction succeeds and
`GetAllDesktop` / `GetAllMobile` return exactly the input lists, in content
and in length. -/
theorem getAll_returns_input (d mo : List UserAgent)
    (hd : d ≠ []) (_hm : mo ≠ [])
    (hvd : ∀ ua ∈ d, validateAgent ua = .ok ())
    (hvm : ∀ ua ∈ mo, validateAgent ua = .ok ()) :
    ∃ mgr, NewManagerFromLists d mo = .ok mgr ∧
      mgr.GetAllDesktop = d ∧ mgr.GetAllMobile = mo ∧
      mgr.GetAllDesktop.length = d.length ∧
      mgr.GetAllMobile.length = mo.length := by
  have hv : Manager.validate
      { desktopAgents := d, mobileAgents := mo, config := DefaultConfig } = .ok () := by
    refine (validate_ok_iff _).mpr ⟨?_, ?_⟩
    · rintro ⟨h1, -⟩; exact hd h1
    · intro ua hua
      rcases List.mem_append.mp hua with h | h
      · exact hvd ua h
      · exact hvm ua h
  refine ⟨{ desktopAgents := d, mobileAgents := mo, config := DefaultConfig },
    ?_, rfl, rfl, rfl, rfl⟩
  rw [newManagerFromLists_eq]
  simp [hv]

/-- Witness for C6 at a concrete valid input pair. -/
theorem getAll_returns_input_witness :
    ∃ mgr, NewManagerFromLists [uaOk] [uaOk2] = .ok mgr ∧
      mgr.GetAllDesktop = [uaOk] ∧ mgr.GetAllMobile = [uaOk2] ∧
      mgr.GetAllDesktop.length = [uaOk].length ∧
      mgr.GetAllMobile.length = [uaOk2].length :=
  getAll_returns_input [uaOk] [uaOk2] (by decide) (by decide) (by decide) (by decide)

/-- C3 counterexample: a construction whose mobile list is empty but whose
desktop list is valid succeeds (validation only rejects when both catalogs are
empty), and `GetRandomMobile` on the resulting manager then reaches the
`ErrEmptyAgentList` branch — so the claim that both catalogs are non-empty
after every successful construction, making that branch unreachable, is
false. -/
theorem singleEmptyCatalog_counterexample :
    NewManagerFromLists [uaOk] [] =
      .ok { desktopAgents := [uaOk], mobileAgents := [], config := DefaultConfig } ∧
    Manager.GetRandomMobile
      { desktopAgents := [uaOk], mobileAgents := [], config := DefaultConfig }
      (some 0) = .error .emptyAgentList :=
  ⟨by decide, by decide⟩

/-- C3 amended: after every successful construction at least one catalog is
non-empty (not necessarily both), so the `ErrEmptyAgentList` branch of
`GetRandomUA` is unreachable; the branches of `GetRandomDesktop` and
`GetRandomMobile` are unreachable only when the respective catalog is
non-empty. -/
theorem construction_union_nonEmpty (fs : FS) (cfg : Config) (mgr : Manager)
    (h : NewManager fs cfg = .ok mgr) :
    ¬(mgr.desktopAgents = [] ∧ mgr.mobileAgents = []) ∧
    (∀ draw, mgr.GetRandomUA draw ≠ .error .emptyAgentList) ∧
    (mgr.desktopAgents ≠ [] →
      ∀ draw, mgr.GetRandomDesktop draw ≠ .error .emptyAgentList) ∧
    (mgr.mobileAgents ≠ [] →
      ∀ draw, mgr.GetRandomMobile draw ≠ .error .emptyAgentList) := by
  have hv := newManager_ok fs cfg mgr h
  have hne := ((validate_ok_iff mgr).mp hv).1
  refine ⟨hne, ?_, ?_, ?_⟩
  · intro draw
    unfold Manager.GetRandomUA
    have hlen : (mgr.desktopAgents ++ mgr.mobileAgents).length ≠ 0 := by
      simp only [List.length_append, ne_eq]
      intro hc
      have hz : mgr.desktopAgents.length = 0 ∧ mgr.mobileAgents.length = 0 := by omega
      exact hne ⟨List.length_eq_zero.mp hz.1, List.length_eq_zero.mp hz.2⟩
    rw [if_neg hlen]
    cases hs : secureRandomInt draw
        ((mgr.desktopAgents ++ mgr.mobileAgents).length : Int) with
    | error e =>
      simp only [hs]
      rcases secureRandomInt_error _ _ _ hs with h1 | h1 <;> simp [h1]
    | ok idx => simp [hs]
  · intro hd draw
    unfold Manager.GetRandomDesktop
    have hlen : mgr.desktopAgents.length ≠ 0 := by
      simpa [List.length_eq_zero] using hd
    rw [if_neg hlen]
    cases hs : secureRandomInt draw (mgr.desktopAgents.length : Int) with
    | error e =>
      simp only [hs]
      rcases secureRandomInt_error _ _ _ hs with h1 | h1 <;> simp [h1]
    | ok idx => simp [hs]
  · intro hm draw
    unfold Manager.GetRandomMobile
    have hlen : mgr.mobileAgents.length ≠ 0 := by
      simpa [List.length_eq_zero] using hm
    rw [if_neg hlen]
    cases hs : secureRandomInt draw (mgr.mobileAgents.length : Int) with
    | error e =>
      simp only [hs]
      rcases secureRandomInt_error _ _ _ hs with h1 | h1 <;> simp [h1]
    | ok idx => simp [hs]

/-- Witness for the amended C3. -/
theorem construction_union_nonEmpty_witness :
    ¬((([uaOk] : List UserAgent) = [] ∧ ([] : List UserAgent) = [])) ∧
    (∀ draw,
      Manager.GetRandomUA
        { desktopAgents := [uaOk], mobileAgents := [], config := DefaultConfig }
        draw ≠ .error .emptyAgentList) :=
  have h := construction_union_nonEmpty (embedFS [uaOk] []) DefaultConfig
    { desktopAgents := [uaOk], mobileAgents := [], config := DefaultConfig } (by decide)
  ⟨h.1, h.2.1⟩

/-- C4 counterexample: construction with an empty desktop path fails with the
`ErrInvalidData` sentinel — the validation error value — not with
`ErrFileNotFound`, so the claim that the empty-path failure carries the
source-not-found error value is false. -/
theorem emptyPath_counterexample :
    NewManager (embedFS [uaOk] [uaOk2])
      { DesktopFile := "", MobileFile := "mobile_useragents.json" } =
        .error .invalidData ∧
    GoErr.invalidData ≠ GoErr.fileNotFound :=
  ⟨by decide, by decide⟩

/-- C4 amended: an unreadable source fails construction with the
`ErrFileNotFound` sentinel, which is distinguishable from `ErrInvalidData`;
an empty source path also fails construction, but with the `ErrInvalidData`
sentinel, not the source-not-found value. -/
theorem source_errors_distinguishable (fs : FS) (cfg : Config) :
    (cfg.DesktopFile = "" ∨ cfg.MobileFile = "" →
      NewManager fs cfg = .error .invalidData) ∧
    (cfg.DesktopFile ≠ "" → cfg.MobileFile ≠ "" → fs cfg.DesktopFile = none →
      NewManager fs cfg = .error .fileNotFound) ∧
    (∀ d : List UserAgent, cfg.DesktopFile ≠ "" → cfg.MobileFile ≠ "" →
      fs cfg.DesktopFile = some (.ok d) → fs cfg.MobileFile = none →
      NewManager fs cfg = .error .fileNotFound) ∧
    GoErr.fileNotFound ≠ GoErr.invalidData := by
  refine ⟨?_, ?_, ?_, by decide⟩
  · intro h0
    unfold NewManager
    rw [if_pos h0]
  · intro h1 h2 hfs
    unfold NewManager
    rw [if_neg (not_or.mpr ⟨h1, h2⟩)]
    have hld : loadUserAgents fs cfg.DesktopFile = .error .fileNotFound := by
      unfold loadUserAgents; rw [hfs]
    simp [hld]
  · intro d h1 h2 hfd hfm
    unfold NewManager
    rw [if_neg (not_or.mpr ⟨h1, h2⟩)]
    have hld : loadUserAgents fs cfg.DesktopFile = .ok d := by
      unfold loadUserAgents; rw [hfd]
    have hlm : loadUserAgents fs cfg.MobileFile = .error .fileNotFound := by
      unfold loadUserAgents; rw [hfm]
    simp [hld, hlm]

/-- Witness for the amended C4: a fully unreadable file system fails with the
file-not-found sentinel; an empty path fails with the invalid-data sentinel. -/
theorem source_errors_distinguishable_witness :
    NewManager unreadableFS DefaultConfig = .error .fileNotFound ∧
    NewManager unreadableFS { DesktopFile := "", MobileFile := "x" } =
      .error .invalidData :=
  ⟨(source_errors_distinguishable unreadableFS DefaultConfig).2.1
      (by decide) (by decide) rfl,
   (source_errors_distinguishable unreadableFS
      { DesktopFile := "", MobileFile := "x" }).1 (Or.inl rfl)⟩

/-!
Helper lemmas for the selection operations.  `randomPick` abbreviates the
common body of `GetRandomDesktop` / `GetRandomMobile` over an arbitrary
catalog: it is definitionally what those operations do to their list.
-/

/-- The catalog-generic body of the random-selection operations. -/
def randomPick (l : List UserAgent) (draw : Option Nat) : Except GoErr UserAgent :=
  if l.length = 0 then .error .emptyAgentList
  else
    match secureRandomInt draw (l.length : Int) with
    | .error e => .error e
    | .ok idx => .ok (l.getD idx.toNat default)

/-- The `randomPick` fails with the empty-list sentinel exactly on the empty
catalog. -/
lemma randomPick_empty_iff (l : List UserAgent) (draw : Option Nat) :
    randomPick l draw = .error .emptyAgentList ↔ l = [] := by
  unfold randomPick
  by_cases h0 : l.length = 0
  · simp [h0, List.length_eq_zero.mp h0]
  · rw [if_neg h0]
    cases hs : secureRandomInt draw (l.length : Int) with
    | error e =>
      simp only [hs]
      constructor
      · intro hc
        injection hc with he
        rcases secureRandomInt_error _ _ _ hs with h1 | h1 <;> simp [h1] at he
      · intro hc
        exact absurd (by simp [hc] : l.length = 0) h0
    | ok idx =>
      simp only [hs]
      constructor
      · intro hc; exact absurd hc (by simp)
      · intro hc
        exact absurd (by simp [hc] : l.length = 0) h0

/-- A successful `randomPick` returns a member of the catalog. -/
lemma randomPick_ok_mem (l : List UserAgent) (draw : Option Nat) (ua : UserAgent)
    (h : randomPick l draw = .ok ua) : ua ∈ l := by
  unfold randomPick at h
  by_cases h0 : l.length = 0
  · rw [if_pos h0] at h; exact absurd h (by simp)
  · rw [if_neg h0] at h
    cases hs : secureRandomInt draw (l.length : Int) with
    | error e => rw [hs] at h; exact absurd h (by simp)
    | ok idx =>
      rw [hs] at h
      simp only [Except.ok.injEq] at h
      obtain ⟨hnn, hlt⟩ := secureRandomInt_ok _ _ _ hs
      have hidx : idx.toNat < l.length := by omega
      rw [← h]
      exact getD_mem l idx.toNat default hidx

/-- The `GetRandomUA` is the UA-projection of a `randomPick` over the
concatenation of the catalogs. -/
lemma getRandomUA_eq_map (m : Manager) (draw : Option Nat) :
    m.GetRandomUA draw =
      (randomPick (m.desktopAgents ++ m.mobileAgents) draw).map UserAgent.UA := by
  unfold Manager.GetRandomUA randomPick
  by_cases h0 : (m.desktopAgents ++ m.mobileAgents).length = 0
  · simp [h0, Except.map]
  · simp only [if_neg h0]
    cases hs : secureRandomInt draw ((m.desktopAgents ++ m.mobileAgents).length : Int) with
    | error e => simp [hs, Except.map]
    | ok idx => simp [hs, Except.map]

/-- The `GetRandomDesktopUA` is the UA-projection of `GetRandomDesktop`. -/
lemma getRandomDesktopUA_eq_map (m : Manager) (draw : Option Nat) :
    m.GetRandomDesktopUA draw = (m.GetRandomDesktop draw).map UserAgent.UA := by
  unfold Manager.GetRandomDesktopUA
  cases h : m.GetRandomDesktop draw <;> simp [h, Except.map]

/-- The `GetRandomMobileUA` is the UA-projection of `GetRandomMobile`. -/
lemma getRandomMobileUA_eq_map (m : Manager) (draw : Option Nat) :
    m.GetRandomMobileUA draw = (m.GetRandomMobile draw).map UserAgent.UA := by
  unfold Manager.GetRandomMobileUA
  cases h : m.GetRandomMobile draw <;> simp [h, Except.map]

/-- Equal UA projections give equal lengths. -/
lemma length_eq_of_map_UA {l1 l2 : List UserAgent}
    (h : l1.map UserAgent.UA = l2.map UserAgent.UA) : l1.length = l2.length := by
  have hc := congrArg List.length h
  simpa using hc

/-- Equal UA projections give equal UA fields at every `getD` index. -/
lemma getD_map_UA {l1 l2 : List UserAgent}
    (h : l1.map UserAgent.UA = l2.map UserAgent.UA) (i : Nat) :
    (l1.getD i default).UA = (l2.getD i default).UA := by
  have e : ∀ l : List UserAgent,
      (l.getD i default).UA = (l.map UserAgent.UA).getD i (default : UserAgent).UA := by
    intro l
    rw [List.getD_eq_getElem?_getD, List.getD_eq_getElem?_getD, List.getElem?_map]
    cases l[i]? <;> rfl
  rw [e l1, e l2, h]

/-- The `randomPick` is invariant, up to the UA projection, under changes of the
weight fields. -/
lemma randomPick_map_UA {l1 l2 : List UserAgent} (draw : Option Nat)
    (h : l1.map UserAgent.UA = l2.map UserAgent.UA) :
    (randomPick l1 draw).map UserAgent.UA = (randomPick l2 draw).map UserAgent.UA := by
  have hlen := length_eq_of_map_UA h
  unfold randomPick
  rw [hlen]
  by_cases h0 : l2.length = 0
  · rw [if_pos h0, if_pos h0]
  · rw [if_neg h0, if_neg h0]
    cases hs : secureRandomInt draw (l2.length : Int) with
    | error e => simp [hs]
    | ok idx =>
      simp only [hs, Except.map]
      rw [getD_map_UA h idx.toNat]

/-!
Claim theorems: selection operations.
-/

/-- C5: `GetRandomDesktop` / `GetRandomMobile` return the empty-list error
exactly when the respective catalog is empty and only ever return members of
that catalog; `GetRandomUA` returns the empty-list error exactly when both
catalogs are empty, only ever returns the text of an entry of the union, and
when one catalog is empty selects only among the other catalog's entries. -/
theorem selection_membership (m : Manager) (draw : Option Nat) :
    (m.GetRandomDesktop draw = .error .emptyAgentList ↔ m.desktopAgents = []) ∧
    (m.GetRandomMobile draw = .error .emptyAgentList ↔ m.mobileAgents = []) ∧
    (∀ ua, m.GetRandomDesktop draw = .ok ua → ua ∈ m.desktopAgents) ∧
    (∀ ua, m.GetRandomMobile draw = .ok ua → ua ∈ m.mobileAgents) ∧
    (m.GetRandomUA draw = .error .emptyAgentList ↔
      (m.desktopAgents = [] ∧ m.mobileAgents = [])) ∧
    (∀ s, m.GetRandomUA draw = .ok s →
      s ∈ (m.desktopAgents ++ m.mobileAgents).map UserAgent.UA) ∧
    (m.desktopAgents = [] → ∀ s, m.GetRandomUA draw = .ok s →
      s ∈ m.mobileAgents.map UserAgent.UA) ∧
    (m.mobileAgents = [] → ∀ s, m.GetRandomUA draw = .ok s →
      s ∈ m.desktopAgents.map UserAgent.UA) := by
  have hmem : ∀ s, m.GetRandomUA draw = .ok s →
      s ∈ (m.desktopAgents ++ m.mobileAgents).map UserAgent.UA := by
    intro s hs
    rw [getRandomUA_eq_map] at hs
    cases hp : randomPick (m.desktopAgents ++ m.mobileAgents) draw with
    | error e => simp [hp, Except.map] at hs
    | ok ua =>
      simp only [hp, Except.map, Except.ok.injEq] at hs
      rw [← hs]
      exact List.mem_map_of_mem _ (randomPick_ok_mem _ _ _ hp)
  refine ⟨randomPick_empty_iff m.desktopAgents draw,
    randomPick_empty_iff m.mobileAgents draw,
    fun ua hu => randomPick_ok_mem m.desktopAgents draw ua hu,
    fun ua hu => randomPick_ok_mem m.mobileAgents draw ua hu,
    ?_, hmem, ?_, ?_⟩
  · rw [getRandomUA_eq_map]
    have hiff := randomPick_empty_iff (m.desktopAgents ++ m.mobileAgents) draw
    cases hp : randomPick (m.desktopAgents ++ m.mobileAgents) draw with
    | error e =>
      rw [hp] at hiff
      simp only [hp, Except.map]
      constructor
      · intro hc
        injection hc with he
        exact List.append_eq_nil.mp (hiff.mp (by rw [he]))
      · intro hc
        have hee := hiff.mpr (by simp [hc.1, hc.2])
        injection hee with he
        rw [he]
    | ok ua =>
      simp only [hp, Except.map]
      constructor
      · intro hc; exact absurd hc (by simp)
      · rintro ⟨h1, h2⟩
        have hm := randomPick_ok_mem _ _ _ hp
        rw [h1, h2] at hm
        simp at hm
  · intro hd s hs
    have hm := hmem s hs
    rw [hd] at hm
    simpa using hm
  · intro hmo s hs
    have hm := hmem s hs
    rw [hmo] at hm
    simpa using hm

/-- A concrete valid manager used in witnesses. -/
def mgr0 : Manager :=
  { desktopAgents := [uaOk], mobileAgents := [uaOk2], config := DefaultConfig }

/-- Witness for C5: over the concrete manager `mgr0`, a concrete draw returns
a desktop member and a union member. -/
theorem selection_membership_witness :
    uaOk ∈ mgr0.desktopAgents ∧
    uaOk.UA ∈ (mgr0.desktopAgents ++ mgr0.mobileAgents).map UserAgent.UA :=
  ⟨(selection_membership mgr0 (some 0)).2.2.1 uaOk (by decide),
   (selection_membership mgr0 (some 0)).2.2.2.2.2.1 uaOk.UA (by decide)⟩

/-- C8: selection is independent of the weight field: two managers whose
catalogs carry the same UA texts in the same order, with arbitrarily
different weights, select the same text for every random draw. -/
theorem weight_independent_selection (m1 m2 : Manager) (draw : Option Nat)
    (hd : m1.desktopAgents.map UserAgent.UA = m2.desktopAgents.map UserAgent.UA)
    (hm : m1.mobileAgents.map UserAgent.UA = m2.mobileAgents.map UserAgent.UA) :
    m1.GetRandomUA draw = m2.GetRandomUA draw ∧
    m1.GetRandomDesktopUA draw = m2.GetRandomDesktopUA draw ∧
    m1.GetRandomMobileUA draw = m2.GetRandomMobileUA draw ∧
    (m1.GetRandomDesktop draw).map UserAgent.UA =
      (m2.GetRandomDesktop draw).map UserAgent.UA ∧
    (m1.GetRandomMobile draw).map UserAgent.UA =
      (m2.GetRandomMobile draw).map UserAgent.UA := by
  have hu : (m1.desktopAgents ++ m1.mobileAgents).map UserAgent.UA =
      (m2.desktopAgents ++ m2.mobileAgents).map UserAgent.UA := by
    rw [List.map_append, List.map_append, hd, hm]
  refine ⟨?_, ?_, ?_, randomPick_map_UA draw hd, randomPick_map_UA draw hm⟩
  · rw [getRandomUA_eq_map, getRandomUA_eq_map]
    exact randomPick_map_UA draw hu
  · rw [getRandomDesktopUA_eq_map, getRandomDesktopUA_eq_map]
    exact randomPick_map_UA draw hd
  · rw [getRandomMobileUA_eq_map, getRandomMobileUA_eq_map]
    exact randomPick_map_UA draw hm

/-- A weight-perturbed copy of `mgr0`, same UA texts, different weights. -/
def mgrW : Manager :=
  { desktopAgents := [{ UA := uaOk.UA, Pct := 3 }],
    mobileAgents := [{ UA := uaOk2.UA, Pct := 99 }], config := DefaultConfig }

/-- Witness for C8 at a concrete pair of weight-divergent managers. -/
theorem weight_independent_selection_witness :
    Manager.GetRandomUA mgr0 (some 1) = Manager.GetRandomUA mgrW (some 1) :=
  (weight_independent_selection mgr0 mgrW (some 1) (by decide) (by decide)).1

/-- C9: `secureRandomInt` errors on a non-positive bound and on entropy
failure (propagated, never replaced by a fallback), and otherwise returns a
value in `[0, max)`; consequently every catalog index used by the selection
operations on a non-empty catalog is in bounds, and an entropy failure
surfaces from the selection operations as an error. -/
theorem secure_random_bounds (draw : Option Nat) (n : Int) :
    (n ≤ 0 → secureRandomInt draw n = .error .maxNotPositive) ∧
    (0 < n → secureRandomInt none n = .error .entropyFailure) ∧
    (∀ i, secureRandomInt draw n = .ok i → 0 ≤ i ∧ i < n) ∧
    (∀ (m : Manager) (i : Int),
      secureRandomInt draw (m.desktopAgents.length : Int) = .ok i →
      i.toNat < m.desktopAgents.length) ∧
    (∀ (m : Manager) (i : Int),
      secureRandomInt draw (m.mobileAgents.length : Int) = .ok i →
      i.toNat < m.mobileAgents.length) ∧
    (∀ (m : Manager) (i : Int),
      secureRandomInt draw ((m.desktopAgents ++ m.mobileAgents).length : Int) = .ok i →
      i.toNat < (m.desktopAgents ++ m.mobileAgents).length) ∧
    (∀ m : Manager, m.desktopAgents ≠ [] →
      m.GetRandomDesktop none = .error .entropyFailure) ∧
    (∀ m : Manager, m.mobileAgents ≠ [] →
      m.GetRandomMobile none = .error .entropyFailure) := by
  have hnone : ∀ k : Int, 0 < k → secureRandomInt none k = .error .entropyFailure := by
    intro k hk
    unfold secureRandomInt
    rw [if_neg (not_le.mpr hk)]
  refine ⟨?_, hnone n, fun i hi => secureRandomInt_ok draw n i hi, ?_, ?_, ?_, ?_, ?_⟩
  · intro h0
    unfold secureRandomInt
    rw [if_pos h0]
  · intro m i hi
    obtain ⟨h1, h2⟩ := secureRandomInt_ok _ _ _ hi
    omega
  · intro m i hi
    obtain ⟨h1, h2⟩ := secureRandomInt_ok _ _ _ hi
    omega
  · intro m i hi
    obtain ⟨h1, h2⟩ := secureRandomInt_ok _ _ _ hi
    omega
  · intro m hm
    have hlen : m.desktopAgents.length ≠ 0 := by
      simpa [List.length_eq_zero] using hm
    unfold Manager.GetRandomDesktop
    rw [if_neg hlen, hnone _ (by exact_mod_cast Nat.pos_of_ne_zero hlen)]
  · intro m hm
    have hlen : m.mobileAgents.length ≠ 0 := by
      simpa [List.length_eq_zero] using hm
    unfold Manager.GetRandomMobile
    rw [if_neg hlen, hnone _ (by exact_mod_cast Nat.pos_of_ne_zero hlen)]

/-- Witness for C9 at concrete draws and bounds. -/
theorem secure_random_bounds_witness :
    secureRandomInt (some 5) (-2) = .error .maxNotPositive ∧
    secureRandomInt none 7 = .error .entropyFailure ∧
    ((0 : Int) ≤ 5 ∧ (5 : Int) < 7) ∧
    Manager.GetRandomDesktop mgr0 none = .error .entropyFailure :=
  ⟨(secure_random_bounds (some 5) (-2)).1 (by decide),
   (secure_random_bounds (some 5) 7).2.1 (by decide),
   (secure_random_bounds (some 5) 7).2.2.1 5 (by decide),
   (secure_random_bounds (some 5) 7).2.2.2.2.2.2.1 mgr0 (by decide)⟩

/-!
Claim theorems: defensive copies, in the heap model.
-/

/-- The list content a caller observes from a `GetAllDesktop` call: the
contents of the returned reference in the post-call heap. -/
def GetAllDesktopVal (m : ManagerRef) (h : Heap) : List UserAgent :=
  (GetAllDesktopH m h).2.read (GetAllDesktopH m h).1

/-- The list content a caller observes from a `GetAllMobile` call. -/
def GetAllMobileVal (m : ManagerRef) (h : Heap) : List UserAgent :=
  (GetAllMobileH m h).2.read (GetAllMobileH m h).1

/-- Reading a live reference is unaffected by writing through the reference
returned by a fresh allocation. -/
lemma read_write_fresh (h : Heap) (r : Nat) (hr : r < h.cells.length)
    (w v : List UserAgent) :
    (((h.alloc w).2).write (h.alloc w).1 v).read r = h.read r := by
  simp only [Heap.alloc, Heap.write, Heap.read]
  rw [List.getD_eq_getElem?_getD, List.getD_eq_getElem?_getD,
    List.getElem?_set_ne (by omega : h.cells.length ≠ r),
    List.getElem?_append_left hr]

/-- A freshly allocated reference reads back the allocated value. -/
lemma read_alloc_fresh (h : Heap) (w : List UserAgent) :
    ((h.alloc w).2).read (h.alloc w).1 = w := by
  simp only [Heap.alloc, Heap.read]
  rw [List.getD_eq_getElem?_getD, List.getElem?_append_right (le_refl _)]
  simp

/-- The observed value of `GetAllDesktop` is the stored desktop catalog. -/
lemma getAllDesktopVal_eq (m : ManagerRef) (h : Heap) :
    GetAllDesktopVal m h = h.read m.desktopRef :=
  read_alloc_fresh h _

/-- The observed value of `GetAllMobile` is the stored mobile catalog. -/
lemma getAllMobileVal_eq (m : ManagerRef) (h : Heap) :
    GetAllMobileVal m h = h.read m.mobileRef :=
  read_alloc_fresh h _

/-- C7: `GetAllDesktop` and `GetAllMobile` return defensive copies: for every
mutation written through the returned reference, the manager's stored
catalogs are unchanged (its view of the heap is invariant), every subsequent
`GetAllDesktop` / `GetAllMobile` call observes the same lists, and the random
selection operations return the same results as without the mutation. -/
theorem getAll_defensive_copy (m : ManagerRef) (h : Heap) (hwf : m.wf h)
    (v : List UserAgent) :
    m.view ((GetAllDesktopH m h).2.write (GetAllDesktopH m h).1 v) = m.view h ∧
    m.view ((GetAllMobileH m h).2.write (GetAllMobileH m h).1 v) = m.view h ∧
    GetAllDesktopVal m ((GetAllDesktopH m h).2.write (GetAllDesktopH m h).1 v) =
      GetAllDesktopVal m h ∧
    GetAllMobileVal m ((GetAllDesktopH m h).2.write (GetAllDesktopH m h).1 v) =
      GetAllMobileVal m h ∧
    GetAllDesktopVal m ((GetAllMobileH m h).2.write (GetAllMobileH m h).1 v) =
      GetAllDesktopVal m h ∧
    GetAllMobileVal m ((GetAllMobileH m h).2.write (GetAllMobileH m h).1 v) =
      GetAllMobileVal m h ∧
    (∀ draw,
      (m.view ((GetAllDesktopH m h).2.write (GetAllDesktopH m h).1 v)).GetRandomDesktop
          draw = (m.view h).GetRandomDesktop draw) ∧
    (∀ draw,
      (m.view ((GetAllDesktopH m h).2.write (GetAllDesktopH m h).1 v)).GetRandomMobile
          draw = (m.view h).GetRandomMobile draw) ∧
    (∀ draw,
      (m.view ((GetAllDesktopH m h).2.write (GetAllDesktopH m h).1 v)).GetRandomUA
          draw = (m.view h).GetRandomUA draw) := by
  have hd1 : ((GetAllDesktopH m h).2.write (GetAllDesktopH m h).1 v).read m.desktopRef =
      h.read m.desktopRef := read_write_fresh h m.desktopRef hwf.1 _ v
  have hd2 : ((GetAllDesktopH m h).2.write (GetAllDesktopH m h).1 v).read m.mobileRef =
      h.read m.mobileRef := read_write_fresh h m.mobileRef hwf.2 _ v
  have hm1 : ((GetAllMobileH m h).2.write (GetAllMobileH m h).1 v).read m.desktopRef =
      h.read m.desktopRef := read_write_fresh h m.desktopRef hwf.1 _ v
  have hm2 : ((GetAllMobileH m h).2.write (GetAllMobileH m h).1 v).read m.mobileRef =
      h.read m.mobileRef := read_write_fresh h m.mobileRef hwf.2 _ v
  have hviewD : m.view ((GetAllDesktopH m h).2.write (GetAllDesktopH m h).1 v) =
      m.view h := by
    unfold ManagerRef.view
    rw [hd1, hd2]
  have hviewM : m.view ((GetAllMobileH m h).2.write (GetAllMobileH m h).1 v) =
      m.view h := by
    unfold ManagerRef.view
    rw [hm1, hm2]
  refine ⟨hviewD, hviewM, ?_, ?_, ?_, ?_,
    fun draw => by rw [hviewD], fun draw => by rw [hviewD], fun draw => by rw [hviewD]⟩
  · rw [getAllDesktopVal_eq, getAllDesktopVal_eq, hd1]
  · rw [getAllMobileVal_eq, getAllMobileVal_eq, hd2]
  · rw [getAllDesktopVal_eq, getAllDesktopVal_eq, hm1]
  · rw [getAllMobileVal_eq, getAllMobileVal_eq, hm2]

/-- A concrete two-cell heap used in the C7 witness. -/
def heap0 : Heap := { cells := [[uaOk], [uaOk2]] }

/-- A concrete manager reference into `heap0`. -/
def mref0 : ManagerRef := { desktopRef := 0, mobileRef := 1 }

/-- Witness for C7: mutating the slice returned by a concrete `GetAllDesktop`
call leaves the concrete manager's view unchanged. -/
theorem getAll_defensive_copy_witness :
    ManagerRef.view mref0
        ((GetAllDesktopH mref0 heap0).2.write (GetAllDesktopH mref0 heap0).1 []) =
      ManagerRef.view mref0 heap0 :=
  (getAll_defensive_copy mref0 heap0 ⟨by decide, by decide⟩ []).1

end CommonUserAgent
